import Mathlib

/-!
Verification of the entity-alignment and graph-comparison core of the
grokipedia-evals repository.

The canonicalizer is translated from the Python shown in
`src/plans/Code-Walkthrough.md` (the canonical-id pattern):
`re.sub(r"[^a-z0-9]+", "_", text.strip().lower()).strip("_")`.
Strings are modelled as Lean `String` (lists of characters); `str.lower`
is modelled character-wise on the ASCII range.

`scalePoints` and the `EmbeddingPoint` shape are translated from
`src/app/frontend/src/App.tsx`.  The graph builder and comparator
(`scripts/generate_graphs.py`) and the recompute job layer are not part
of the source tree; those definitions are modelled from the spec, as
marked in their doc comments.
-/

namespace Grokipedia

/-- A character in the regex class `[a-z0-9]` (the characters the
`re.sub(r"[^a-z0-9]+", "_", ...)` call keeps). -/
def isLowerAlnum (c : Char) : Bool :=
  (97 ≤ c.toNat && c.toNat ≤ 122) || (48 ≤ c.toNat && c.toNat ≤ 57)

/-- ASCII whitespace, as stripped by Python `str.strip()` (restricted to
the ASCII range: space, tab, LF, VT, FF, CR). -/
def isPySpace (c : Char) : Bool :=
  c.toNat = 32 || c.toNat = 9 || c.toNat = 10 || c.toNat = 11 ||
  c.toNat = 12 || c.toNat = 13

/-- Character-wise model of Python `str.lower()` on the ASCII range:
maps A-Z to a-z and fixes everything else. -/
def pyLower (c : Char) : Char :=
  if 65 ≤ c.toNat ∧ c.toNat ≤ 90 then Char.ofNat (c.toNat + 32) else c

/-- Python `str.strip(chars)`: drop characters satisfying `p` from both
ends of the list. -/
def stripEnds (p : Char → Bool) (l : List Char) : List Char :=
  ((l.dropWhile p).reverse.dropWhile p).reverse

/-- The `re.sub(r"[^a-z0-9]+", "_", s)` call: replace every maximal run
of characters outside `[a-z0-9]` by a single underscore. -/
def collapseRuns : List Char → List Char
  | [] => []
  | [c] => if isLowerAlnum c then [c] else ['_']
  | c :: d :: cs =>
    if isLowerAlnum c then c :: collapseRuns (d :: cs)
    else if isLowerAlnum d then '_' :: collapseRuns (d :: cs)
    else collapseRuns (d :: cs)

/-- `canonical` on character lists:
`re.sub(r"[^a-z0-9]+", "_", text.strip().lower()).strip("_")`. -/
def canonicalList (l : List Char) : List Char :=
  stripEnds (fun c => c == '_')
    (collapseRuns ((stripEnds isPySpace l).map pyLower))

/-- The canonicalizer `canonical(text: string) -> string` from
`src/plans/Code-Walkthrough.md`: lowercase, strip surrounding whitespace,
collapse runs of non-alphanumerics to `_`, strip outer underscores. -/
def canonical (s : String) : String :=
  String.mk (canonicalList s.data)

/-- Two adjacent characters of a collapsed string never are both
separators: at least one is alphanumeric. -/
def goodPair (c d : Char) : Prop := isLowerAlnum c = true ∨ isLowerAlnum d = true

/-! ## Graph builder and comparator (modelled from the spec) -/

/-- Modelled from the spec: raw extracted entity `{name, type, salience,
sentiment}` (§6 input contract); the builder script is absent from the
source tree. -/
structure RawEntity where
  name : String
  type : String
  salience : Option ℚ
  sentiment : Option ℚ
deriving DecidableEq

/-- Modelled from the spec: raw extracted relation `{subject, predicate,
object, evidence}` (§6 input contract). -/
structure RawRelation where
  subject : String
  predicate : String
  object : String
  evidence : String
deriving DecidableEq

/-- Modelled from the spec: raw extracted claim `{summary, stance,
evidence_snippet}` (§6 input contract). -/
structure RawClaim where
  summary : String
  stance : String
  evidence_snippet : String
deriving DecidableEq

/-- Modelled from the spec: one source's `ExtractionResult` (§4.2),
already validated to the typed shape per §9. -/
structure ExtractionResult where
  entities : List RawEntity
  relations : List RawRelation
  claims : List RawClaim
deriving DecidableEq

/-- Modelled from the spec: graph `Node` (§3); the canonical `id`, the
first-seen display `label`, the source tag, optional sentiment/salience
and the set of surface-form aliases. -/
structure Node where
  id : String
  type : String
  label : String
  source : String
  sentiment : Option ℚ
  salience : Option ℚ
  aliases : Finset String
deriving DecidableEq

/-- Modelled from the spec: graph `Edge` (§3); `id` is a deterministic
function of `(src, label, dst)`. -/
structure Edge where
  id : String
  src : String
  dst : String
  type : String
  label : String
deriving DecidableEq

/-- Modelled from the spec: per-source `Graph` (§3), nodes and edges
keyed by id. -/
structure Graph where
  nodes : List Node
  edges : List Edge
deriving DecidableEq

/-- Max-merge of two optional saliences (aliasing policy of §4.1:
`salience: max`). -/
def optMax (a b : Option ℚ) : Option ℚ :=
  match a, b with
  | some x, some y => some (max x y)
  | some x, none => some x
  | none, y => y

/-- Last-defined-write of two optional sentiments (aliasing policy of
§4.1: `sentiment: last-write`; a missing new value keeps the old one). -/
def lastWrite (old new : Option ℚ) : Option ℚ :=
  match new with
  | some v => some v
  | none => old

/-- Modelled from the spec: insert one raw entity into the node list
(§4.1 aliasing / §4.2): a fresh canonical id appends a node whose alias
set holds its own label; a repeated id merges into the existing node,
keeping the first-seen label, adding the new label to `aliases`, taking
the max salience and the last-written sentiment. -/
def addEntityNode (tag : String) (acc : List Node) (e : RawEntity) : List Node :=
  let i := canonical e.name
  if acc.any fun n => n.id == i then
    acc.map fun n =>
      if n.id == i then
        { n with aliases := insert e.name n.aliases,
                 salience := optMax n.salience e.salience,
                 sentiment := lastWrite n.sentiment e.sentiment }
      else n
  else
    acc ++ [{ id := i, type := e.type, label := e.name, source := tag,
              sentiment := e.sentiment, salience := e.salience,
              aliases := {e.name} }]

/-- Modelled from the spec: the node list of a build (§4.2) — entities
then claims become nodes (claims with type `claim`, using the summary as
the canonical-label input), merged by canonical id. -/
def buildNodes (x : ExtractionResult) (tag : String) : List Node :=
  x.claims.foldl
    (fun acc c => addEntityNode tag acc ⟨c.summary, "claim", none, none⟩)
    (x.entities.foldl (addEntityNode tag) [])

/-- Modelled from the spec: the edges before id-dedup — each relation
whose subject and object both canonicalize to existing node ids yields
one edge; any other relation yields none (§4.2 edge cases). -/
def buildRawEdges (x : ExtractionResult) (tag : String) : List Edge :=
  x.relations.filterMap fun r =>
    if canonical r.subject ∈ (buildNodes x tag).map Node.id
        ∧ canonical r.object ∈ (buildNodes x tag).map Node.id then
      some { id := canonical r.subject ++ "|" ++ r.predicate ++ "|"
                     ++ canonical r.object,
             src := canonical r.subject, dst := canonical r.object,
             type := "relation", label := r.predicate }
    else none

/-- Duplicate edge ids collapse, last-write-wins (§3 edge invariant). -/
def dedupeEdges (es : List Edge) : List Edge :=
  es.foldl (fun acc e => (acc.filter fun e2 => e2.id ≠ e.id) ++ [e]) []

/-- Modelled from the spec: `build_graph(extracted, source_tag) -> Graph`
(§4.2); the builder script is absent from the source tree. -/
def build_graph (x : ExtractionResult) (tag : String) : Graph :=
  { nodes := buildNodes x tag, edges := dedupeEdges (buildRawEdges x tag) }

/-- The node ids of a graph, as a list (one per node entry). -/
def nodeIdList (g : Graph) : List String := g.nodes.map Node.id

/-- Modelled from the spec: the non-claim node-id set of a graph (§4.3
entity overlap excludes claim nodes). -/
def entityIds (g : Graph) : Finset String :=
  ((g.nodes.filter fun n => n.type != "claim").map Node.id).toFinset

/-- Modelled from the spec: node ids carrying a defined sentiment
(§4.3 sentiment divergence). -/
def sentIds (g : Graph) : Finset String :=
  ((g.nodes.filter fun n => n.sentiment.isSome).map Node.id).toFinset

/-- Modelled from the spec: ids present in both graphs with a defined
sentiment in both — the restricted set of §4.3. -/
def sentShared (p s : Graph) : Finset String := sentIds p ∩ sentIds s

/-- Sentiment of the node with a given id (0 when absent or undefined;
only used on ids of `sentShared`, where it is defined). -/
def sentOf (g : Graph) (i : String) : ℚ :=
  match g.nodes.find? fun n => n.id == i with
  | some n => n.sentiment.getD 0
  | none => 0

/-- The `(src-id, relation-label, dst-id)` triples of a graph (§4.3 edge
overlap). -/
def edgeTriples (g : Graph) : Finset (String × String × String) :=
  (g.edges.map fun e => (e.src, e.label, e.dst)).toFinset

/-- Modelled from the spec: `jaccard = |A∩B| / |A∪B|`, defined as 0 when
both sets are empty (§4.3 zero-convention). -/
def jaccardQ {α : Type} [DecidableEq α] (A B : Finset α) : ℚ :=
  if A ∪ B = ∅ then 0 else ((A ∩ B).card : ℚ) / ((A ∪ B).card : ℚ)

/-- Modelled from the spec: the `entity_overlap` block of a
`ComparisonResult` (§3). -/
structure EntityOverlap where
  jaccard : ℚ
  intersection : Finset String
  primary_unique : Finset String
  secondary_unique : Finset String
deriving DecidableEq

/-- Modelled from the spec: the `edge_overlap` block of a
`ComparisonResult` (§3). -/
structure EdgeOverlap where
  jaccard : ℚ
deriving DecidableEq

/-- Modelled from the spec: the `sentiment_divergence` block of a
`ComparisonResult` (§3); `mean_abs_diff` is `none` (the null sentinel)
when no entity has a defined sentiment in both graphs. -/
structure SentimentDivergence where
  mean_abs_diff : Option ℚ
  count : ℕ
deriving DecidableEq

/-- Modelled from the spec: `ComparisonResult` (§3). -/
structure ComparisonResult where
  entity_overlap : EntityOverlap
  edge_overlap : EdgeOverlap
  sentiment_divergence : SentimentDivergence
deriving DecidableEq

/-- Modelled from the spec: `compare_graphs(primary, secondary)` (§4.3);
the comparator script is absent from the source tree.  Entity Jaccard
over non-claim ids with the zero-convention, unique sets as set
differences, edge Jaccard over label triples, and sentiment divergence
over the restricted shared set, `none` when that set is empty. -/
def compare_graphs (p s : Graph) : ComparisonResult :=
  let A := entityIds p
  let B := entityIds s
  let S := sentShared p s
  { entity_overlap :=
      { jaccard := jaccardQ A B,
        intersection := A ∩ B,
        primary_unique := A \ B,
        secondary_unique := B \ A },
    edge_overlap := { jaccard := jaccardQ (edgeTriples p) (edgeTriples s) },
    sentiment_divergence :=
      { mean_abs_diff :=
          if S = ∅ then none
          else some ((S.sum fun i => |sentOf p i - sentOf s i|) / (S.card : ℚ)),
        count := S.card } }

/-! ## Embedding scatter scaling (`scalePoints` in `App.tsx`) -/

/-- The `EmbeddingPoint` shape from `App.tsx`; JS numbers are modelled as
rationals, optional fields as `Option` (the TS `sentiment` may also be a
string; only its numeric use matters here). -/
structure EmbeddingPoint where
  id : String
  label : String
  source : String
  type : Option String
  x : ℚ
  y : ℚ
  salience : Option ℚ
  sentiment : Option ℚ
deriving DecidableEq

/-- Output of `scalePoints`: the input point spread together with the
screen coordinates `sx`, `sy`. -/
structure ScaledPoint where
  point : EmbeddingPoint
  sx : ℚ
  sy : ℚ
deriving DecidableEq

/-- `scalePoints` from `App.tsx`: min/max-normalizes the points into the
padded `width × height` viewport; `Math.min(...xs)` over the non-empty
list is a fold of `min` seeded with the first element, and the JS
`maxX - minX || 1` span guard is the zero test. -/
def scalePoints (points : List EmbeddingPoint) (width height : ℚ)
    (padding : ℚ := 24) : List ScaledPoint :=
  match points with
  | [] => []
  | q :: qs =>
    let pts := q :: qs
    let xs := pts.map EmbeddingPoint.x
    let ys := pts.map EmbeddingPoint.y
    let minX := xs.foldl min q.x
    let maxX := xs.foldl max q.x
    let minY := ys.foldl min q.y
    let maxY := ys.foldl max q.y
    let spanX := if maxX - minX = 0 then 1 else maxX - minX
    let spanY := if maxY - minY = 0 then 1 else maxY - minY
    pts.map fun p =>
      ⟨p, ((p.x - minX) / spanX) * (width - padding * 2) + padding,
          height - (((p.y - minY) / spanY) * (height - padding * 2) + padding)⟩

/-! ## Versioned publishing of recompute results -/

/-- Modelled from the spec: the repository has no recompute/publish store
under `src/` (the FastAPI job layer is absent); §5 of the spec mandates
version-stamped last-committed-wins writes, keyed per topic.  A topic's
published cell holds the newest committed `(generation, result)`; a
commit is accepted only when its generation is strictly newer. -/
def commitResult {R : Type} (st : Option (ℕ × R)) (g : ℕ) (r : R) :
    Option (ℕ × R) :=
  match st with
  | none => some (g, r)
  | some cur => if cur.1 < g then some (g, r) else some cur

/-! ## Concrete scenario inputs -/

/-- The aliasing scenario input: two surface labels with the same
canonical id. -/
def xAlias : ExtractionResult :=
  ⟨[⟨"COVID-19", "entity", none, none⟩, ⟨"Covid 19", "entity", none, none⟩],
   [], []⟩

/-- Primary extraction of the Jaccard scenario. -/
def xPrimary : ExtractionResult :=
  ⟨[⟨"COVID-19", "entity", none, none⟩, ⟨"Wuhan", "entity", none, none⟩,
    ⟨"WHO", "entity", none, none⟩], [], []⟩

/-- Secondary extraction of the Jaccard scenario. -/
def xSecondary : ExtractionResult :=
  ⟨[⟨"COVID-19", "entity", none, none⟩, ⟨"WHO", "entity", none, none⟩,
    ⟨"CDC", "entity", none, none⟩], [], []⟩

/-- The comparison of the Jaccard scenario pair. -/
def scenarioCmp : ComparisonResult :=
  compare_graphs (build_graph xPrimary "primary") (build_graph xSecondary "secondary")

/-- A dangling-relation input: `Bar` appears only as a relation object,
`Foo` and `Baz` are entities. -/
def xDangling : ExtractionResult :=
  ⟨[⟨"Foo", "entity", none, none⟩, ⟨"Baz", "entity", none, none⟩],
   [⟨"Foo", "causes", "Bar", "ev1"⟩, ⟨"Foo", "near", "Baz", "ev2"⟩], []⟩

/-- The empty graph. -/
def emptyGraph : Graph := ⟨[], []⟩

/-- A concrete embedding point for the scaling witness. -/
def ptA : EmbeddingPoint := ⟨"a", "A", "grokipedia", none, 0, 0, none, none⟩

end Grokipedia

namespace Grokipedia

/-! ## Canonicalizer lemmas -/

lemma collapseRuns_alpha (l : List Char) :
    ∀ x ∈ collapseRuns l, isLowerAlnum x = true ∨ x = '_' := by
  induction l using collapseRuns.induct with
  | case1 => simp [collapseRuns]
  | case2 c h =>
    intro x hx
    rw [collapseRuns, if_pos h] at hx
    simp only [List.mem_singleton] at hx
    subst hx
    exact Or.inl h
  | case3 c h =>
    intro x hx
    rw [collapseRuns, if_neg h] at hx
    simp only [List.mem_singleton] at hx
    subst hx
    exact Or.inr rfl
  | case4 c d cs h ih =>
    intro x hx
    rw [collapseRuns, if_pos h] at hx
    rcases List.mem_cons.mp hx with rfl | hx
    · exact Or.inl h
    · exact ih x hx
  | case5 c d cs h hd ih =>
    intro x hx
    rw [collapseRuns, if_neg h, if_pos hd] at hx
    rcases List.mem_cons.mp hx with rfl | hx
    · exact Or.inr rfl
    · exact ih x hx
  | case6 c d cs h hd ih =>
    intro x hx
    rw [collapseRuns, if_neg h, if_neg hd] at hx
    exact ih x hx

lemma collapseRuns_head (d : Char) (cs : List Char) (hd : isLowerAlnum d = true) :
    (collapseRuns (d :: cs)).head? = some d := by
  cases cs with
  | nil => rw [collapseRuns, if_pos hd]; rfl
  | cons e es => rw [collapseRuns, if_pos hd]; rfl

lemma collapseRuns_chain (l : List Char) : List.Chain' goodPair (collapseRuns l) := by
  induction l using collapseRuns.induct with
  | case1 => simp [collapseRuns]
  | case2 c h => rw [collapseRuns, if_pos h]; exact List.chain'_singleton c
  | case3 c h => rw [collapseRuns, if_neg h]; exact List.chain'_singleton _
  | case4 c d cs h ih =>
    rw [collapseRuns, if_pos h]
    exact List.chain'_cons'.mpr ⟨fun y _ => Or.inl h, ih⟩
  | case5 c d cs h hd ih =>
    rw [collapseRuns, if_neg h, if_pos hd]
    refine List.chain'_cons'.mpr ⟨fun y hy => ?_, ih⟩
    rw [collapseRuns_head d cs hd] at hy
    simp only [Option.mem_def, Option.some.injEq] at hy
    subst hy
    exact Or.inr hd
  | case6 c d cs h hd ih =>
    rw [collapseRuns, if_neg h, if_neg hd]
    exact ih

lemma collapseRuns_fixed (l : List Char)
    (halpha : ∀ x ∈ l, isLowerAlnum x = true ∨ x = '_')
    (hchain : List.Chain' goodPair l) : collapseRuns l = l := by
  induction l using collapseRuns.induct with
  | case1 => rfl
  | case2 c h => rw [collapseRuns, if_pos h]
  | case3 c h =>
    rw [collapseRuns, if_neg h]
    rcases halpha c (by simp) with hc | hc
    · exact absurd hc h
    · rw [hc]
  | case4 c d cs h ih =>
    rw [collapseRuns, if_pos h]
    rw [ih (fun x hx => halpha x (List.mem_cons_of_mem c hx))
      (List.chain'_cons.mp hchain).2]
  | case5 c d cs h hd ih =>
    rcases halpha c (by simp) with hc | hc
    · exact absurd hc h
    subst hc
    rw [collapseRuns, if_neg h, if_pos hd]
    rw [ih (fun x hx => halpha x (List.mem_cons_of_mem _ hx))
      (List.chain'_cons.mp hchain).2]
  | case6 c d cs h hd ih =>
    rcases (List.chain'_cons.mp hchain).1 with hc | hd2
    · exact absurd hc h
    · exact absurd hd2 hd

lemma dropWhile_eq_self_of {p : Char → Bool} {l : List Char}
    (h : ∀ x ∈ l, p x = false) : l.dropWhile p = l := by
  cases l with
  | nil => rfl
  | cons a t =>
    exact List.dropWhile_cons_of_neg (by simp [h a (List.mem_cons_self a t)])

lemma dropWhile_idem {p : Char → Bool} {l : List Char} :
    (l.dropWhile p).dropWhile p = l.dropWhile p := by
  cases hcase : l.dropWhile p with
  | nil => rfl
  | cons a t =>
    have hhead := List.head?_dropWhile_not p l
    rw [hcase] at hhead
    have ha : p a = false := hhead
    exact List.dropWhile_cons_of_neg (by simp [ha])

lemma dropWhile_eq_self_append {p : Char → Bool} {l u : List Char}
    (h : (l ++ u).dropWhile p = l ++ u) : l.dropWhile p = l := by
  cases l with
  | nil => rfl
  | cons a t =>
    have ha : p a = false := by
      by_contra hpa
      rw [Bool.not_eq_false] at hpa
      rw [List.cons_append, List.dropWhile_cons_of_pos hpa] at h
      have h1 : ((t ++ u).dropWhile p).length ≤ (t ++ u).length :=
        (List.dropWhile_sublist p).length_le
      rw [h] at h1
      simp at h1
    exact List.dropWhile_cons_of_neg (by simp [ha])

lemma mem_of_mem_stripEnds {p : Char → Bool} {x : Char} {l : List Char}
    (h : x ∈ stripEnds p l) : x ∈ l := by
  unfold stripEnds at h
  rw [List.mem_reverse] at h
  have h2 := List.dropWhile_subset p h
  rw [List.mem_reverse] at h2
  exact List.dropWhile_subset p h2

lemma stripEnds_eq_self_of {p : Char → Bool} {l : List Char}
    (h : ∀ x ∈ l, p x = false) : stripEnds p l = l := by
  unfold stripEnds
  rw [dropWhile_eq_self_of h]
  rw [dropWhile_eq_self_of (fun x hx => h x (List.mem_reverse.mp hx))]
  exact List.reverse_reverse l

lemma chain'_stripEnds {p : Char → Bool} {l : List Char}
    (h : List.Chain' goodPair l) : List.Chain' goodPair (stripEnds p l) := by
  have symmPres : ∀ m : List Char,
      List.Chain' goodPair m → List.Chain' goodPair m.reverse := by
    intro m hm
    rw [List.chain'_reverse]
    exact hm.imp fun a b hab => hab.symm
  have dwPres : ∀ m : List Char,
      List.Chain' goodPair m → List.Chain' goodPair (m.dropWhile p) := by
    intro m hm
    obtain ⟨t, ht⟩ := List.dropWhile_suffix (l := m) p
    rw [← ht] at hm
    exact hm.right_of_append
  unfold stripEnds
  exact symmPres _ (dwPres _ (symmPres _ (dwPres _ h)))

lemma stripEnds_idem (p : Char → Bool) (l : List Char) :
    stripEnds p (stripEnds p l) = stripEnds p l := by
  have hw2 : (l.dropWhile p).dropWhile p = l.dropWhile p := dropWhile_idem
  obtain ⟨t, ht⟩ := List.dropWhile_suffix (l := (l.dropWhile p).reverse) p
  have hmain : l.dropWhile p
      = ((l.dropWhile p).reverse.dropWhile p).reverse ++ t.reverse := by
    have h2 := congrArg List.reverse ht
    rw [List.reverse_append, List.reverse_reverse] at h2
    exact h2.symm
  have step1 : (((l.dropWhile p).reverse.dropWhile p).reverse).dropWhile p
      = ((l.dropWhile p).reverse.dropWhile p).reverse := by
    apply dropWhile_eq_self_append (u := t.reverse)
    rw [← hmain]
    exact hw2
  unfold stripEnds
  rw [step1, List.reverse_reverse, dropWhile_idem]

lemma map_eq_self_of {f : Char → Char} {l : List Char}
    (h : ∀ x ∈ l, f x = x) : l.map f = l := by
  induction l with
  | nil => rfl
  | cons a t ih =>
    rw [List.map_cons, h a (List.mem_cons_self a t),
      ih fun x hx => h x (List.mem_cons_of_mem a hx)]

lemma pyLower_fix {c : Char} (h : isLowerAlnum c = true ∨ c = '_') :
    pyLower c = c := by
  unfold pyLower
  rcases h with h | rfl
  · unfold isLowerAlnum at h
    simp only [Bool.or_eq_true, Bool.and_eq_true, decide_eq_true_eq] at h
    rcases h with ⟨h1, h2⟩ | ⟨h1, h2⟩ <;> rw [if_neg (by omega)]
  · rw [if_neg (by decide)]

lemma notSpace_of_alpha {c : Char} (h : isLowerAlnum c = true ∨ c = '_') :
    isPySpace c = false := by
  rcases h with h | rfl
  · unfold isLowerAlnum at h
    simp only [Bool.or_eq_true, Bool.and_eq_true, decide_eq_true_eq] at h
    unfold isPySpace
    simp only [Bool.or_eq_false_iff, decide_eq_false_iff_not]
    rcases h with ⟨h1, h2⟩ | ⟨h1, h2⟩ <;> omega
  · decide

lemma canonicalList_alpha (l : List Char) :
    ∀ x ∈ canonicalList l, isLowerAlnum x = true ∨ x = '_' :=
  fun x hx => collapseRuns_alpha _ x (mem_of_mem_stripEnds hx)

lemma canonicalList_chain (l : List Char) :
    List.Chain' goodPair (canonicalList l) :=
  chain'_stripEnds (collapseRuns_chain _)

lemma canonicalList_fixed {r : List Char}
    (halpha : ∀ x ∈ r, isLowerAlnum x = true ∨ x = '_')
    (hchain : List.Chain' goodPair r)
    (hstrip : stripEnds (fun c => c == '_') r = r) :
    canonicalList r = r := by
  unfold canonicalList
  rw [stripEnds_eq_self_of fun x hx => notSpace_of_alpha (halpha x hx)]
  rw [map_eq_self_of fun x hx => pyLower_fix (halpha x hx)]
  rw [collapseRuns_fixed r halpha hchain]
  exact hstrip

lemma canonicalList_idem (l : List Char) :
    canonicalList (canonicalList l) = canonicalList l := by
  apply canonicalList_fixed (canonicalList_alpha l) (canonicalList_chain l)
  unfold canonicalList
  exact stripEnds_idem _ _

/-- C1: The canonicalizer is total and idempotent.  Totality holds by
construction (`canonical` is a total Lean function on all strings);
idempotence: `canonical (canonical s) = canonical s` for every string. -/
theorem canonical_total_idem (s : String) :
    canonical (canonical s) = canonical s := by
  show String.mk (canonicalList (String.mk (canonicalList s.data)).data)
      = String.mk (canonicalList s.data)
  exact congrArg String.mk (canonicalList_idem s.data)

/-! ## Jaccard lemmas -/

lemma jaccardQ_nonneg {α : Type} [DecidableEq α] (A B : Finset α) :
    0 ≤ jaccardQ A B := by
  unfold jaccardQ
  split_ifs
  · exact le_refl 0
  · positivity

lemma jaccardQ_le_one {α : Type} [DecidableEq α] (A B : Finset α) :
    jaccardQ A B ≤ 1 := by
  unfold jaccardQ
  split_ifs with h
  · exact zero_le_one
  · have hcard : (A ∩ B).card ≤ (A ∪ B).card :=
      Finset.card_le_card (Finset.inter_subset_left.trans Finset.subset_union_left)
    have hpos : (0 : ℚ) < ((A ∪ B).card : ℚ) := by
      have h0 : 0 < (A ∪ B).card :=
        Finset.card_pos.mpr (Finset.nonempty_iff_ne_empty.mpr h)
      exact_mod_cast h0
    rw [div_le_one hpos]
    exact_mod_cast hcard

lemma jaccardQ_eq_one_iff {α : Type} [DecidableEq α] (A B : Finset α) :
    jaccardQ A B = 1 ↔ A = B ∧ A.Nonempty := by
  unfold jaccardQ
  split_ifs with h
  · constructor
    · intro h01
      exact absurd h01 (by norm_num)
    · rintro ⟨rfl, hne⟩
      exfalso
      rw [Finset.union_self] at h
      exact hne.ne_empty h
  · have hpos : (0 : ℚ) < ((A ∪ B).card : ℚ) := by
      have h0 : 0 < (A ∪ B).card :=
        Finset.card_pos.mpr (Finset.nonempty_iff_ne_empty.mpr h)
      exact_mod_cast h0
    constructor
    · intro heq
      rw [div_eq_one_iff_eq (ne_of_gt hpos)] at heq
      have hcards : (A ∪ B).card ≤ (A ∩ B).card := by
        exact_mod_cast le_of_eq heq.symm
      have hsub : A ∩ B ⊆ A ∪ B :=
        Finset.inter_subset_left.trans Finset.subset_union_left
      have hIU : A ∩ B = A ∪ B := Finset.eq_of_subset_of_card_le hsub hcards
      have hAB : A = B := by
        apply Finset.Subset.antisymm
        · intro a ha
          have hu : a ∈ A ∪ B := Finset.mem_union_left B ha
          rw [← hIU] at hu
          exact (Finset.mem_inter.mp hu).2
        · intro b hb
          have hu : b ∈ A ∪ B := Finset.mem_union_right A hb
          rw [← hIU] at hu
          exact (Finset.mem_inter.mp hu).1
      refine ⟨hAB, Finset.nonempty_iff_ne_empty.mpr fun hA => h ?_⟩
      rw [← hAB, hA, Finset.union_self]
    · rintro ⟨rfl, hne⟩
      rw [Finset.union_self, Finset.inter_self]
      have h0 : ((A.card : ℚ)) ≠ 0 := by
        have hpos : 0 < A.card := Finset.card_pos.mpr hne
        exact_mod_cast hpos.ne'
      exact div_self h0

lemma jaccardQ_eq_zero_of_disjoint {α : Type} [DecidableEq α]
    {A B : Finset α} (h : Disjoint A B) : jaccardQ A B = 0 := by
  unfold jaccardQ
  split_ifs with hU
  · rfl
  · rw [Finset.disjoint_iff_inter_eq_empty.mp h]
    simp

/-- C2: For every pair of graphs, the entity-overlap Jaccard value of
`compare_graphs` lies in [0,1]; it equals 1 iff the two non-claim
entity-id sets are identical and non-empty; and it equals 0 when the
sets are disjoint or both empty (the zero-convention). -/
theorem compare_entity_jaccard_props (p s : Graph) :
    (0 ≤ (compare_graphs p s).entity_overlap.jaccard
      ∧ (compare_graphs p s).entity_overlap.jaccard ≤ 1)
    ∧ ((compare_graphs p s).entity_overlap.jaccard = 1
      ↔ entityIds p = entityIds s ∧ (entityIds p).Nonempty)
    ∧ ((Disjoint (entityIds p) (entityIds s)
        ∨ (entityIds p = ∅ ∧ entityIds s = ∅))
      → (compare_graphs p s).entity_overlap.jaccard = 0) := by
  have hj : (compare_graphs p s).entity_overlap.jaccard
      = jaccardQ (entityIds p) (entityIds s) := rfl
  rw [hj]
  refine ⟨⟨jaccardQ_nonneg _ _, jaccardQ_le_one _ _⟩,
    jaccardQ_eq_one_iff _ _, ?_⟩
  rintro (hd | ⟨hA, hB⟩)
  · exact jaccardQ_eq_zero_of_disjoint hd
  · rw [hA, hB]
    exact jaccardQ_eq_zero_of_disjoint (by simp)

/-- C4: When no entity id is present in both graphs with a defined
sentiment in both, `compare_graphs` reports `mean_abs_diff` as the null
sentinel `none` — never as `some 0` — so the null sentinel and the
Jaccard zero-convention stay distinct. -/
theorem compare_sentiment_null_sentinel (p s : Graph)
    (h : sentShared p s = ∅) :
    (compare_graphs p s).sentiment_divergence.mean_abs_diff = none
    ∧ (compare_graphs p s).sentiment_divergence.mean_abs_diff ≠ some 0 := by
  have hm : (compare_graphs p s).sentiment_divergence.mean_abs_diff = none := by
    show (if sentShared p s = ∅ then none
      else some (((sentShared p s).sum fun i => |sentOf p i - sentOf s i|)
        / ((sentShared p s).card : ℚ))) = none
    rw [if_pos h]
  exact ⟨hm, by rw [hm]; exact Option.noConfusion⟩

/-- Witness for C4 at a concrete input: two empty graphs share no
sentiment-bearing entity, and their comparison reports the null
sentinel. -/
theorem compare_sentiment_null_sentinel_witness :
    sentShared emptyGraph emptyGraph = ∅
    ∧ ((compare_graphs emptyGraph emptyGraph).sentiment_divergence.mean_abs_diff = none
      ∧ (compare_graphs emptyGraph emptyGraph).sentiment_divergence.mean_abs_diff
        ≠ some 0) :=
  ⟨by decide, compare_sentiment_null_sentinel emptyGraph emptyGraph (by decide)⟩

/-- C8: The sentiment-divergence `count` of `compare_graphs` never
exceeds `min(|nodes_primary|, |nodes_secondary|)`: it counts only node
ids present in both graphs with a defined sentiment in both. -/
theorem compare_sentiment_count_le (p s : Graph) :
    (compare_graphs p s).sentiment_divergence.count
      ≤ min p.nodes.length s.nodes.length := by
  have hc : (compare_graphs p s).sentiment_divergence.count
      = (sentShared p s).card := rfl
  rw [hc]
  have hbound : ∀ g : Graph, (sentIds g).card ≤ g.nodes.length := by
    intro g
    unfold sentIds
    calc ((g.nodes.filter fun n => n.sentiment.isSome).map Node.id).toFinset.card
        ≤ ((g.nodes.filter fun n => n.sentiment.isSome).map Node.id).length :=
          List.toFinset_card_le _
      _ = (g.nodes.filter fun n => n.sentiment.isSome).length :=
          List.length_map _ _
      _ ≤ g.nodes.length := List.length_filter_le _ _
  exact le_min
    ((Finset.card_le_card Finset.inter_subset_left).trans (hbound p))
    ((Finset.card_le_card Finset.inter_subset_right).trans (hbound s))

/-! ## Graph-builder lemmas -/

lemma mem_dedupeEdges_aux (es : List Edge) (e : Edge) :
    ∀ acc : List Edge,
      e ∈ es.foldl (fun acc2 e2 => (acc2.filter fun e3 => e3.id ≠ e2.id) ++ [e2]) acc
      → e ∈ acc ∨ e ∈ es := by
  induction es with
  | nil =>
    intro acc h
    exact Or.inl h
  | cons f fs ih =>
    intro acc h
    rw [List.foldl_cons] at h
    rcases ih _ h with h2 | h2
    · rcases List.mem_append.mp h2 with h3 | h3
      · exact Or.inl (List.mem_of_mem_filter h3)
      · rw [List.mem_singleton] at h3
        subst h3
        exact Or.inr (List.mem_cons_self _ fs)
    · exact Or.inr (List.mem_cons_of_mem f h2)

lemma mem_dedupeEdges {e : Edge} {es : List Edge} (h : e ∈ dedupeEdges es) :
    e ∈ es := by
  rcases mem_dedupeEdges_aux es e [] h with h2 | h2
  · cases h2
  · exact h2

lemma mem_buildRawEdges {x : ExtractionResult} {tag : String} {e : Edge}
    (h : e ∈ buildRawEdges x tag) :
    e.src ∈ (buildNodes x tag).map Node.id
    ∧ e.dst ∈ (buildNodes x tag).map Node.id := by
  unfold buildRawEdges at h
  rw [List.mem_filterMap] at h
  obtain ⟨r, _, hmk⟩ := h
  by_cases hc : canonical r.subject ∈ (buildNodes x tag).map Node.id
      ∧ canonical r.object ∈ (buildNodes x tag).map Node.id
  · rw [if_pos hc] at hmk
    cases hmk
    exact hc
  · rw [if_neg hc] at hmk
    cases hmk

/-- C3: No graph produced by `build_graph` has a dangling edge: both
endpoints of every edge are node ids of the graph; a relation whose
subject or object does not canonicalize to an existing node contributes
no edge (the complementary branch of `buildRawEdges`). -/
theorem build_graph_no_dangling (x : ExtractionResult) (tag : String) :
    ∀ e ∈ (build_graph x tag).edges,
      e.src ∈ nodeIdList (build_graph x tag)
      ∧ e.dst ∈ nodeIdList (build_graph x tag) := by
  intro e he
  have he2 : e ∈ buildRawEdges x tag := mem_dedupeEdges he
  exact mem_buildRawEdges he2

/-- Witness for C3 at a concrete input: the one surviving edge of the
dangling-relation scenario has both endpoints among the node ids. -/
theorem build_graph_no_dangling_witness :
    (⟨"foo|near|baz", "foo", "baz", "relation", "near"⟩ : Edge)
      ∈ (build_graph xDangling "primary").edges
    ∧ ("foo" ∈ nodeIdList (build_graph xDangling "primary")
      ∧ "baz" ∈ nodeIdList (build_graph xDangling "primary")) :=
  ⟨by decide, build_graph_no_dangling xDangling "primary"
    ⟨"foo|near|baz", "foo", "baz", "relation", "near"⟩ (by decide)⟩

/-- C6: Two surface labels with one canonical id merge into a single
node whose display label is the first-seen label and whose alias set
holds both original labels. -/
theorem build_graph_alias_merge :
    (build_graph xAlias "primary").nodes.map Node.label = ["COVID-19"]
    ∧ (build_graph xAlias "primary").nodes.map Node.id = ["covid_19"]
    ∧ (build_graph xAlias "primary").nodes.map Node.aliases
        = [({"COVID-19", "Covid 19"} : Finset String)] := by
  decide

/-- C7: The concrete scenario `{COVID-19, Wuhan, WHO}` versus
`{COVID-19, WHO, CDC}`: entity Jaccard 0.5, intersection
`{covid_19, who}`, primary-unique `{wuhan}`, secondary-unique `{cdc}`. -/
theorem compare_graphs_scenario :
    scenarioCmp.entity_overlap.jaccard = 1 / 2
    ∧ scenarioCmp.entity_overlap.intersection = {"covid_19", "who"}
    ∧ scenarioCmp.entity_overlap.primary_unique = {"wuhan"}
    ∧ scenarioCmp.entity_overlap.secondary_unique = {"cdc"} := by
  refine ⟨?_, by decide, by decide, by decide⟩
  have hj : scenarioCmp.entity_overlap.jaccard
      = jaccardQ (entityIds (build_graph xPrimary "primary"))
          (entityIds (build_graph xSecondary "secondary")) := rfl
  have hI : (entityIds (build_graph xPrimary "primary")
      ∩ entityIds (build_graph xSecondary "secondary")).card = 2 := by decide
  have hU : (entityIds (build_graph xPrimary "primary")
      ∪ entityIds (build_graph xSecondary "secondary")).card = 4 := by decide
  rw [hj, jaccardQ, if_neg (by decide), hI, hU]
  norm_num

/-! ## scalePoints lemmas -/

lemma foldl_min_le_init (a : ℚ) (l : List ℚ) : l.foldl min a ≤ a := by
  induction l generalizing a with
  | nil => exact le_refl a
  | cons x xs ih => exact le_trans (ih (min a x)) (min_le_left a x)

lemma foldl_min_le_mem {x : ℚ} {l : List ℚ} (h : x ∈ l) (a : ℚ) :
    l.foldl min a ≤ x := by
  induction l generalizing a with
  | nil => cases h
  | cons y ys ih =>
    rcases List.mem_cons.mp h with rfl | h2
    · exact le_trans (foldl_min_le_init (min a x) ys) (min_le_right a x)
    · exact ih h2 (min a y)

lemma init_le_foldl_max (a : ℚ) (l : List ℚ) : a ≤ l.foldl max a := by
  induction l generalizing a with
  | nil => exact le_refl a
  | cons x xs ih => exact le_trans (le_max_left a x) (ih (max a x))

lemma mem_le_foldl_max {x : ℚ} {l : List ℚ} (h : x ∈ l) (a : ℚ) :
    x ≤ l.foldl max a := by
  induction l generalizing a with
  | nil => cases h
  | cons y ys ih =>
    rcases List.mem_cons.mp h with rfl | h2
    · exact le_trans (le_max_right a x) (init_le_foldl_max (max a x) ys)
    · exact ih h2 (max a y)

lemma ratio_bounds {v mn mx : ℚ} (h1 : mn ≤ v) (h2 : v ≤ mx) :
    0 ≤ (v - mn) / (if mx - mn = 0 then 1 else mx - mn)
    ∧ (v - mn) / (if mx - mn = 0 then 1 else mx - mn) ≤ 1 := by
  by_cases h0 : mx - mn = 0
  · rw [if_pos h0]
    have hv : v = mn := le_antisymm (by linarith) h1
    rw [hv]
    simp
  · rw [if_neg h0]
    have hlt : 0 < mx - mn := lt_of_le_of_ne (by linarith) (Ne.symm h0)
    constructor
    · apply div_nonneg (by linarith) (le_of_lt hlt)
    · rw [div_le_one hlt]
      linarith

/-- C5: `scalePoints` is defined on fewer than two points: the empty
list maps to the empty list, and a single point maps to the
deterministic coordinate `(padding, height - padding)`, independent of
the point's own coordinates. -/
theorem scalePoints_small_inputs (p : EmbeddingPoint) (w h pad : ℚ) :
    scalePoints [] w h pad = []
    ∧ scalePoints [p] w h pad = [⟨p, pad, h - pad⟩] := by
  refine ⟨rfl, ?_⟩
  simp [scalePoints]

/-- C10: every point scaled by `scalePoints` lands inside the padded
viewport whenever the viewport strictly exceeds twice the padding (the
`span || 1` guard covers coinciding coordinates), and the empty input
yields the empty output. -/
theorem scalePoints_in_viewport (points : List EmbeddingPoint) (w h pad : ℚ)
    (hw : 2 * pad < w) (hh : 2 * pad < h) :
    scalePoints [] w h pad = []
    ∧ ∀ sp ∈ scalePoints points w h pad,
        pad ≤ sp.sx ∧ sp.sx ≤ w - pad ∧ pad ≤ sp.sy ∧ sp.sy ≤ h - pad := by
  refine ⟨rfl, ?_⟩
  intro sp hsp
  cases points with
  | nil => cases hsp
  | cons q qs =>
    rw [scalePoints] at hsp
    simp only [List.mem_map] at hsp
    obtain ⟨p, hp, rfl⟩ := hsp
    have hminx := foldl_min_le_mem
      (List.mem_map_of_mem EmbeddingPoint.x hp) q.x
    have hmaxx := mem_le_foldl_max
      (List.mem_map_of_mem EmbeddingPoint.x hp) q.x
    have hminy := foldl_min_le_mem
      (List.mem_map_of_mem EmbeddingPoint.y hp) q.y
    have hmaxy := mem_le_foldl_max
      (List.mem_map_of_mem EmbeddingPoint.y hp) q.y
    obtain ⟨hx0, hx1⟩ := ratio_bounds hminx hmaxx
    obtain ⟨hy0, hy1⟩ := ratio_bounds hminy hmaxy
    have hwpos : (0 : ℚ) ≤ w - pad * 2 := by linarith
    have hhpos : (0 : ℚ) ≤ h - pad * 2 := by linarith
    have hbx1 := mul_nonneg hx0 hwpos
    have hbx2 := mul_le_of_le_one_left hwpos hx1
    have hby1 := mul_nonneg hy0 hhpos
    have hby2 := mul_le_of_le_one_left hhpos hy1
    refine ⟨by dsimp only; linarith, by dsimp only; linarith,
      by dsimp only; linarith, by dsimp only; linarith⟩

/-- Witness for C10 at a concrete input: one point, a 100×50 viewport
and padding 4; the scaled point is `(4, 46)` and lies within the
bounds. -/
theorem scalePoints_in_viewport_witness :
    ((2 : ℚ) * 4 < 100 ∧ (2 : ℚ) * 4 < 50)
    ∧ (4 ≤ (⟨ptA, 4, 46⟩ : ScaledPoint).sx
      ∧ (⟨ptA, 4, 46⟩ : ScaledPoint).sx ≤ 100 - 4
      ∧ 4 ≤ (⟨ptA, 4, 46⟩ : ScaledPoint).sy
      ∧ (⟨ptA, 4, 46⟩ : ScaledPoint).sy ≤ 50 - 4) :=
  ⟨⟨by norm_num, by norm_num⟩,
    (scalePoints_in_viewport [ptA] 100 50 4 (by norm_num)
      (by norm_num)).2 ⟨ptA, 4, 46⟩ (by simp [scalePoints, ptA]; norm_num)⟩

/-! ## Versioned-store lemma -/

/-- C9: a stale in-flight recompute never overwrites a result committed
by a newer recompute for the same topic: committing with a generation
not newer than the published one leaves the published bundle unchanged,
so at most one result is ever published per topic and generation. -/
theorem commit_stale_never_overwrites {R : Type} (g0 : ℕ) (r0 : R)
    (g : ℕ) (r : R) (h : g ≤ g0) :
    commitResult (some (g0, r0)) g r = some (g0, r0) := by
  show (if g0 < g then some (g, r) else some (g0, r0)) = some (g0, r0)
  rw [if_neg (Nat.not_lt.mpr h)]

/-- Witness for C9 at a concrete input: generation 3 cannot overwrite
the already-published generation 5. -/
theorem commit_stale_never_overwrites_witness :
    3 ≤ 5
    ∧ commitResult (some (5, "newer")) 3 "stale" = some (5, "newer") :=
  ⟨by norm_num, commit_stale_never_overwrites 5 "newer" 3 "stale" (by norm_num)⟩

end Grokipedia
